import Mathlib

/-!
Verification of the WavePhysics recurring-maintenance core: a shallow
embedding of the equipment-type catalog resolver, the soft-delete
consolidation on delete, the completion ledger, and the upcoming-records
window query of `api.py`, together with theorems about them.

Rows of the SQL tables are embedded as Lean structures; the backing store
is embedded as lists of rows plus id counters.  SQL `NULL` becomes
`Option.none`.  Dates stored as ISO `YYYY-MM-DD` text are embedded as
integer day numbers (the SQL text comparisons used by the code coincide
with date order on such strings).
-/

namespace WavePhysics

/-- A row of the `equipment_types` table (`sql.py`, lines 71-80). -/
structure EquipmentType where
  id : Nat
  business_id : Option Nat
  name : String
  interval_weeks : Int
  rrule : String
  default_lead_weeks : Int
  active : Bool
  deleted_at : Option String
  deleted_by : Option String
deriving DecidableEq, Repr

/-- A row of the `clients` table (`sql.py`, lines 29-37); only the fields
this development needs. -/
structure Client where
  id : Nat
  business_id : Nat
  client_name : String
deriving DecidableEq, Repr

/-- A row of the `equipment_record` table (`sql.py`, lines 93-106), with the
soft-delete tombstone columns added by the migrations. -/
structure EquipmentRecord where
  id : Nat
  client_id : Nat
  site_id : Nat
  equipment_type_id : Nat
  equipment_name : String
  anchor_date : Int
  due_date : Option Int
  interval_weeks : Int
  lead_weeks : Option Int
  active : Bool
  deleted_at : Option String
  deleted_by : Option String
deriving DecidableEq, Repr

/-- A row of the `equipment_completions` table (`sql_postgres.py`,
lines 339-346). -/
structure EquipmentCompletion where
  id : Nat
  equipment_record_id : Nat
  completed_at : String
  due_date : Int
  interval_weeks : Option Int
  completed_by_user : Option String
deriving DecidableEq, Repr

/-- The backing store: the tables the modeled operations touch, plus the
id sequences. `businesses` holds the ids of the `businesses` table rows. -/
structure Store where
  businesses : List Nat
  clients : List Client
  types : List EquipmentType
  records : List EquipmentRecord
  completions : List EquipmentCompletion
  next_type_id : Nat
  next_completion_id : Nat
deriving DecidableEq, Repr

/-- The caller context derived from the auth token
(`api.py`, `get_current_user`). -/
structure Caller where
  username : String
  is_admin : Bool
  is_super_admin : Bool
  business_id : Option Nat
deriving DecidableEq, Repr

/-- The typed failures the endpoints surface (`HTTPException`s). -/
inductive ApiError where
  | notFound (detail : String)
  | badRequest (detail : String)
  | forbidden (detail : String)
deriving DecidableEq, Repr

/-- The `get_business_id` helper (`api.py`, lines 161-170): super admins may
have no business context; regular users must have one (Python `if not
business_id` also treats `0` as missing). -/
def get_business_id_ctx (c : Caller) : Except ApiError (Option Nat) :=
  if c.is_super_admin then Except.ok c.business_id
  else
    match c.business_id with
    | none => Except.error (ApiError.forbidden "No business context available")
    | some b =>
      if b == 0 then Except.error (ApiError.forbidden "No business context available")
      else Except.ok (some b)

/-- The `NOT EXISTS` subquery of the tenant-scoped catalog query
(`api.py`, lines 1736-1742 and 1759-1764): a non-deleted (and, when
`active_only`, active) global row with this name exists. -/
def existsGlobalNamed (ts : List EquipmentType) (n : String) (active_only : Bool) : Bool :=
  ts.any fun g =>
    g.business_id == none && g.name == n && g.deleted_at == none && (!active_only || g.active)

/-- Row visibility in the tenant-scoped catalog `UNION` query
(`api.py`, lines 1721-1767): every non-deleted global row, plus every
non-deleted row of this business whose name has no matching global row. -/
def catalogVisible (ts : List EquipmentType) (bid : Nat) (active_only : Bool)
    (t : EquipmentType) : Bool :=
  t.deleted_at == none && (!active_only || t.active) &&
    (t.business_id == none ||
      (t.business_id == some bid && !existsGlobalNamed ts t.name active_only))

/-- The tenant branch of `list_equipment_types` (`api.py`, lines 1717-1769):
the effective catalog of business `bid`. -/
def list_equipment_types (s : Store) (bid : Nat) (active_only : Bool) : List EquipmentType :=
  s.types.filter (catalogVisible s.types bid active_only)

/-- Whether business `bid` has a visible type named `n` in its effective
catalog. -/
def businessSeesName (s : Store) (bid : Nat) (n : String) : Bool :=
  (list_equipment_types s bid false).any fun t => t.name == n

/-- A concrete global type named "X" (id 1). -/
def gX : EquipmentType :=
  { id := 1, business_id := none, name := "X", interval_weeks := 13
    rrule := "FREQ=WEEKLY;INTERVAL=13", default_lead_weeks := 3, active := true
    deleted_at := none, deleted_by := none }

/-- A concrete tenant-specific type named "X" owned by business 1 (id 2). -/
def bX : EquipmentType :=
  { id := 2, business_id := some 1, name := "X", interval_weeks := 26
    rrule := "FREQ=WEEKLY;INTERVAL=26", default_lead_weeks := 4, active := true
    deleted_at := none, deleted_by := none }

/-- A concrete store in which the name "X" exists both globally and as
business 1's own type. -/
def s0 : Store :=
  { businesses := [1, 2], clients := [], types := [gX, bX], records := []
    completions := [], next_type_id := 3, next_completion_id := 1 }

/-- C1: counterexample.  In store `s0` the name "X" exists both as a global
type (`gX`) and as business 1's own type (`bX`); the claim says the effective
catalog of business 1 contains only the tenant-specific `bX`, but the code's
catalog contains the global `gX` and not `bX` (the `NOT EXISTS` subquery
excludes the tenant row whenever a global row of the same name exists). -/
theorem tenant_type_does_not_shadow_global :
    bX ∉ list_equipment_types s0 1 false ∧ gX ∈ list_equipment_types s0 1 false := by
  decide

/-- C1 (amended): whenever a name exists both as a non-tombstoned global type
and as a non-tombstoned tenant-specific type of business `bid`, the effective
catalog of `bid` contains the global row and not the tenant-specific one: the
global type shadows the tenant override. -/
theorem global_type_shadows_tenant_override (s : Store) (bid : Nat)
    (g t : EquipmentType)
    (hg : g ∈ s.types) (hgb : g.business_id = none) (hgd : g.deleted_at = none)
    (ht : t ∈ s.types) (htb : t.business_id = some bid) (htd : t.deleted_at = none)
    (hname : t.name = g.name) :
    g ∈ list_equipment_types s bid false ∧ t ∉ list_equipment_types s bid false := by
  constructor
  · refine List.mem_filter.mpr ⟨hg, ?_⟩
    simp [catalogVisible, hgb, hgd]
  · intro hmem
    have hvis := (List.mem_filter.mp hmem).2
    simp only [catalogVisible, htb, htd] at hvis
    have hex : existsGlobalNamed s.types t.name false = true := by
      simp only [existsGlobalNamed, List.any_eq_true]
      exact ⟨g, hg, by simp [hgb, hgd, hname]⟩
    simp [hex] at hvis

/-- C1 (amended) at a concrete input: in `s0`, the global `gX` is in business
1's catalog and the tenant-specific `bX` is not. -/
theorem global_type_shadows_tenant_override_witness :
    gX ∈ list_equipment_types s0 1 false ∧ bX ∉ list_equipment_types s0 1 false :=
  global_type_shadows_tenant_override s0 1 gX bX (by decide) (by decide) (by decide)
    (by decide) (by decide) (by decide) (by decide)

/-- Predicate: a non-deleted global row named `n`. -/
def isGlobalNamed (n : String) (t : EquipmentType) : Bool :=
  t.business_id == none && t.name == n && t.deleted_at == none

/-- Predicate: a non-deleted row named `n` owned by business `bid`. -/
def isOwnNamed (bid : Nat) (n : String) (t : EquipmentType) : Bool :=
  t.business_id == some bid && t.name == n && t.deleted_at == none

/-- C2: under the store invariant intended by the schema's
`UNIQUE(business_id, name)` constraint (at most one non-deleted global row
and at most one non-deleted business-owned row per name), whenever a
non-tombstoned global type named `n` or a non-tombstoned type named `n`
owned by business `bid` exists, the effective catalog of `bid` contains
exactly one type named `n` — never both rows at once and never neither. -/
theorem catalog_exactly_one_per_name (s : Store) (bid : Nat) (n : String)
    (wf_g : s.types.countP (isGlobalNamed n) ≤ 1)
    (wf_b : s.types.countP (isOwnNamed bid n) ≤ 1)
    (hex : ∃ t ∈ s.types,
      (t.business_id = none ∨ t.business_id = some bid) ∧ t.name = n ∧ t.deleted_at = none) :
    (list_equipment_types s bid false).countP (fun t => t.name == n) = 1 := by
  rw [list_equipment_types, List.countP_filter]
  by_cases hg : existsGlobalNamed s.types n false = true
  · have hcong : ∀ t ∈ s.types,
        ((fun t => t.name == n && catalogVisible s.types bid false t) t = true) ↔
          (isGlobalNamed n t = true) := by
      intro t _
      simp only [catalogVisible, isGlobalNamed, Bool.and_eq_true, Bool.or_eq_true,
        beq_iff_eq, Bool.not_eq_eq_eq_not, Bool.not_true]
      constructor
      · rintro ⟨hn, ⟨hd, -⟩, hdisj⟩
        rcases hdisj with hnone | ⟨-, hng⟩
        · exact ⟨⟨hnone, hn⟩, hd⟩
        · rw [hn] at hng
          rw [hng] at hg
          cases hg
      · rintro ⟨⟨hnone, hn⟩, hd⟩
        exact ⟨hn, ⟨hd, by simp⟩, Or.inl hnone⟩
    rw [List.countP_congr hcong]
    have hpos : 0 < s.types.countP (isGlobalNamed n) := by
      rw [List.countP_pos_iff]
      simp only [existsGlobalNamed, List.any_eq_true] at hg
      obtain ⟨g, hgm, hgp⟩ := hg
      refine ⟨g, hgm, ?_⟩
      simp only [Bool.and_eq_true] at hgp
      simp [isGlobalNamed, hgp.1.1.1, hgp.1.1.2, hgp.1.2]
    omega
  · have hgf : existsGlobalNamed s.types n false = false := by
      simpa using hg
    have hnog : ∀ t ∈ s.types,
        t.business_id = none → t.name = n → t.deleted_at ≠ none := by
      intro t htm hbn htn hdel
      simp only [existsGlobalNamed, List.any_eq_false] at hgf
      exact hgf t htm (by simp [hbn, htn, hdel])
    have hcong : ∀ t ∈ s.types,
        ((fun t => t.name == n && catalogVisible s.types bid false t) t = true) ↔
          (isOwnNamed bid n t = true) := by
      intro t htm
      simp only [catalogVisible, isOwnNamed, Bool.and_eq_true, Bool.or_eq_true,
        beq_iff_eq, Bool.not_eq_eq_eq_not, Bool.not_true]
      constructor
      · rintro ⟨hn, ⟨hd, -⟩, hdisj⟩
        rcases hdisj with hnone | ⟨hbid, -⟩
        · exact absurd hd (hnog t htm hnone hn)
        · exact ⟨⟨hbid, hn⟩, hd⟩
      · rintro ⟨⟨hbid, hn⟩, hd⟩
        refine ⟨hn, ⟨hd, by simp⟩, Or.inr ⟨hbid, ?_⟩⟩
        rw [hn]
        exact hgf
    rw [List.countP_congr hcong]
    have hpos : 0 < s.types.countP (isOwnNamed bid n) := by
      rw [List.countP_pos_iff]
      obtain ⟨t, htm, hsc, htn, htd⟩ := hex
      rcases hsc with hnone | hbid
      · exact absurd htd (hnog t htm hnone htn)
      · exact ⟨t, htm, by simp [isOwnNamed, hbid, htn, htd]⟩
    omega

/-- C2 at a concrete input: in store `s0`, business 1's catalog contains
exactly one type named "X". -/
theorem catalog_exactly_one_per_name_witness :
    (list_equipment_types s0 1 false).countP (fun t => t.name == "X") = 1 :=
  catalog_exactly_one_per_name s0 1 "X" (by decide) (by decide)
    ⟨gX, by decide, by decide, by decide, by decide⟩

/-- The `UPDATE ... WHERE name = ? AND business_id IS NULL AND deleted_at IS
NULL` statement that tombstones the global row(s) of a name
(`api.py`, lines 2086-2089). -/
def tombstoneGlobalsNamed (n delAt delBy : String) (ts : List EquipmentType) :
    List EquipmentType :=
  ts.map fun t =>
    if t.name == n && t.business_id == none && t.deleted_at == none then
      { t with deleted_at := some delAt, deleted_by := some delBy }
    else t

/-- The `UPDATE ... WHERE name = ? AND business_id = ? AND deleted_at IS
NULL` statement of the business-specific branch (`api.py`, lines 2092-2095). -/
def tombstoneBusinessNamed (n : String) (bid : Nat) (delAt delBy : String)
    (ts : List EquipmentType) : List EquipmentType :=
  ts.map fun t =>
    if t.name == n && t.business_id == some bid && t.deleted_at == none then
      { t with deleted_at := some delAt, deleted_by := some delBy }
    else t

/-- The materialized per-business copy of a global row (`api.py`,
lines 2078-2083): same name and fields, owned by business `b`, not
tombstoned. -/
def copyTypeFor (src : EquipmentType) (b : Nat) (newId : Nat) : EquipmentType :=
  { id := newId, business_id := some b, name := src.name
    interval_weeks := src.interval_weeks, rrule := src.rrule
    default_lead_weeks := src.default_lead_weeks, active := src.active
    deleted_at := none, deleted_by := none }

/-- Append a freshly inserted `equipment_types` row and advance the id
sequence. -/
def addTypeRow (s : Store) (t : EquipmentType) : Store :=
  { s with types := s.types ++ [t], next_type_id := s.next_type_id + 1 }

/-- The materialization loop of `delete_equipment_type` (`api.py`,
lines 2064-2083): for every business other than the excluded one that has no
non-deleted row of this name, insert a copy of the global row.  An insert
that hits a tombstoned row of the same `(business_id, name)` violates the
schema's `UNIQUE(business_id, name)` constraint (the existence check at
lines 2070-2074 filters on `deleted_at IS NULL`, the constraint does not)
and surfaces as an error. -/
def materializeForBusinesses (src : EquipmentType) (excluded : Nat) :
    List Nat → Store → Except ApiError Store
  | [], s => Except.ok s
  | b :: rest, s =>
    if b == excluded then materializeForBusinesses src excluded rest s
    else if s.types.any fun t =>
        t.name == src.name && t.business_id == some b && t.deleted_at == none then
      materializeForBusinesses src excluded rest s
    else if s.types.any fun t => t.name == src.name && t.business_id == some b then
      Except.error (ApiError.badRequest
        "UNIQUE constraint failed: equipment_types.business_id, equipment_types.name")
    else
      materializeForBusinesses src excluded rest
        (addTypeRow s (copyTypeFor src b s.next_type_id))

/-- The `business_id`-provided branch of `delete_equipment_type`
(`api.py`, lines 2045-2098): on a global type, materialize per-business
copies for every other business and tombstone the global row(s); on a
business-specific type, tombstone that business's row(s) of the name. -/
def delete_equipment_type_from_business (s : Store) (c : Caller)
    (equipment_type_id business_id : Nat) (deleted_at_ts : String) :
    Except ApiError Store :=
  if !c.is_super_admin then Except.error (ApiError.forbidden "Super admin access required")
  else
    match s.types.find? fun t => t.id == equipment_type_id && t.deleted_at == none with
    | none => Except.error (ApiError.notFound "Equipment type not found")
    | some et =>
      match et.business_id with
      | none =>
        (materializeForBusinesses et business_id s.businesses s).map fun s1 =>
          { s1 with types := tombstoneGlobalsNamed et.name deleted_at_ts c.username s1.types }
      | some _ =>
        Except.ok { s with
          types := tombstoneBusinessNamed et.name business_id deleted_at_ts c.username s.types }

/-- A concrete super-admin caller with no selected business. -/
def sadmin : Caller :=
  { username := "root", is_admin := true, is_super_admin := true, business_id := none }

/-- Evaluates the C3 scenario: in `s0` (global "X" and business 1's own "X"),
delete the global type id 1 from business 1; `true` exactly when the call
succeeded and business 1 still sees a type named "X" afterwards. -/
def c3CheckState : Bool :=
  match delete_equipment_type_from_business s0 sadmin 1 1 "2024-05-01T00:00:00" with
  | Except.ok s1 => businessSeesName s1 1 "X"
  | Except.error _ => false

/-- C3: counterexample.  In `s0`, business 1 already has its own type named
"X"; after `delete_type(global-X, delete_from_business(1))` succeeds, the
code tombstones only the global row, so business 1 still sees "X" through its
own override — contradicting the claim's "B no longer sees X". -/
theorem delete_from_business_keeps_existing_override_visible :
    c3CheckState = true := by decide

/-- Materialization only appends rows: every pre-existing row survives. -/
theorem materialize_preserves_rows (src : EquipmentType) (ex : Nat) :
    ∀ (l : List Nat) (s s1 : Store),
      materializeForBusinesses src ex l s = Except.ok s1 →
      ∀ t ∈ s.types, t ∈ s1.types := by
  intro l
  induction l with
  | nil =>
    intro s s1 h t htm
    simp only [materializeForBusinesses] at h
    cases h
    exact htm
  | cons b rest ih =>
    intro s s1 h t htm
    simp only [materializeForBusinesses] at h
    split at h
    · exact ih s s1 h t htm
    · split at h
      · exact ih s s1 h t htm
      · split at h
        · cases h
        · refine ih _ s1 h t ?_
          simp [addTypeRow, htm]

/-- Materialization post-condition: afterwards every listed business other
than the excluded one owns a non-deleted row named after the source. -/
theorem materialize_covers_businesses (src : EquipmentType) (ex : Nat) :
    ∀ (l : List Nat) (s s1 : Store),
      materializeForBusinesses src ex l s = Except.ok s1 →
      ∀ b ∈ l, b ≠ ex →
        ∃ t ∈ s1.types,
          t.business_id = some b ∧ t.name = src.name ∧ t.deleted_at = none := by
  intro l
  induction l with
  | nil =>
    intro s s1 _ b hb
    cases hb
  | cons b0 rest ih =>
    intro s s1 h b hb hbex
    simp only [materializeForBusinesses] at h
    rcases List.mem_cons.mp hb with hb0 | hbr
    · subst hb0
      split at h
      · rename_i hcond
        exact absurd (by simpa using hcond) hbex
      · split at h
        · rename_i hcond hexist
          simp only [List.any_eq_true, Bool.and_eq_true, beq_iff_eq] at hexist
          obtain ⟨t, htm, ⟨hn, hbid⟩, hd⟩ := hexist
          exact ⟨t, materialize_preserves_rows src ex rest s s1 h t htm, hbid, hn, hd⟩
        · split at h
          · cases h
          · refine ⟨copyTypeFor src b s.next_type_id,
              materialize_preserves_rows src ex rest _ s1 h _ ?_, by simp [copyTypeFor],
              by simp [copyTypeFor], by simp [copyTypeFor]⟩
            simp [addTypeRow]
    · split at h
      · exact ih s s1 h b hbr hbex
      · split at h
        · exact ih s s1 h b hbr hbex
        · split at h
          · cases h
          · exact ih _ s1 h b hbr hbex

/-- Every row after materialization is either a pre-existing row or a fresh
non-deleted copy owned by some business other than the excluded one. -/
theorem materialize_row_origin (src : EquipmentType) (ex : Nat) :
    ∀ (l : List Nat) (s s1 : Store),
      materializeForBusinesses src ex l s = Except.ok s1 →
      ∀ t ∈ s1.types,
        t ∈ s.types ∨
          (t.name = src.name ∧ t.deleted_at = none ∧
            ∃ b, t.business_id = some b ∧ b ≠ ex) := by
  intro l
  induction l with
  | nil =>
    intro s s1 h t htm
    simp only [materializeForBusinesses] at h
    cases h
    exact Or.inl htm
  | cons b0 rest ih =>
    intro s s1 h t htm
    simp only [materializeForBusinesses] at h
    split at h
    · exact ih s s1 h t htm
    · split at h
      · exact ih s s1 h t htm
      · split at h
        · cases h
        · rename_i hne _ _
          rcases ih _ s1 h t htm with hin | hnew
          · simp only [addTypeRow, List.mem_append, List.mem_singleton] at hin
            rcases hin with hin | hcopy
            · exact Or.inl hin
            · refine Or.inr ⟨by simp [hcopy, copyTypeFor], by simp [hcopy, copyTypeFor],
                b0, by simp [hcopy, copyTypeFor], ?_⟩
              simpa using hne
          · exact Or.inr hnew

/-- After the tombstoning update, no global row of the name is left
non-deleted. -/
theorem tombstone_globals_complete (n delAt delBy : String)
    (ts : List EquipmentType) :
    ∀ t ∈ tombstoneGlobalsNamed n delAt delBy ts,
      t.business_id = none → t.name = n → t.deleted_at ≠ none := by
  intro t htm hbid hn
  simp only [tombstoneGlobalsNamed, List.mem_map] at htm
  obtain ⟨t0, _, himg⟩ := htm
  by_cases hcond : (t0.name == n && t0.business_id == none && t0.deleted_at == none) = true
  · rw [if_pos hcond] at himg
    rw [← himg]
    simp
  · rw [if_neg hcond] at himg
    subst himg
    intro hd
    exact hcond (by simp [hn, hbid, hd])

/-- A non-global row passes through the tombstoning update unchanged, and is
in its image. -/
theorem tombstone_globals_keeps_nonglobal (n delAt delBy : String)
    (ts : List EquipmentType) (t : EquipmentType) (htm : t ∈ ts)
    (hbid : t.business_id ≠ none) :
    t ∈ tombstoneGlobalsNamed n delAt delBy ts := by
  simp only [tombstoneGlobalsNamed, List.mem_map]
  refine ⟨t, htm, ?_⟩
  rw [if_neg]
  simp only [Bool.and_eq_true, beq_iff_eq]
  rintro ⟨⟨-, h⟩, -⟩
  exact absurd h hbid

/-- A row of the image of the tombstoning update that is not tombstoned was
already present unchanged. -/
theorem tombstone_globals_nondeleted_origin (n delAt delBy : String)
    (ts : List EquipmentType) (t : EquipmentType)
    (htm : t ∈ tombstoneGlobalsNamed n delAt delBy ts)
    (hd : t.deleted_at = none) : t ∈ ts := by
  simp only [tombstoneGlobalsNamed, List.mem_map] at htm
  obtain ⟨t0, ht0, himg⟩ := htm
  by_cases hcond : (t0.name == n && t0.business_id == none && t0.deleted_at == none) = true
  · rw [if_pos hcond] at himg
    rw [← himg] at hd
    simp at hd
  · rw [if_neg hcond] at himg
    rw [← himg]
    exact ht0

/-- A business that owns a non-deleted row of a name sees that name whenever
no non-deleted global row of the name exists. -/
theorem seesName_of_ownRow (s' : Store) (b : Nat) (n : String) (t : EquipmentType)
    (htm : t ∈ s'.types) (hbid : t.business_id = some b) (hd : t.deleted_at = none)
    (hn : t.name = n) (hnoG : existsGlobalNamed s'.types n false = false) :
    businessSeesName s' b n = true := by
  have hvis : catalogVisible s'.types b false t = true := by
    simp only [catalogVisible, hd, hbid, hn]
    simp [hnoG]
  refine List.any_eq_true.mpr ⟨t, List.mem_filter.mpr ⟨htm, hvis⟩, by simp [hn]⟩

/-- C3 (amended): after a successful `delete_type(global-X,
delete_from_business(B))`, every business other than B sees a visible type
named X (its pre-existing override or the freshly materialized copy), every
global row named X is tombstoned, and B still sees X exactly when B already
had its own non-tombstoned override of the name — in particular B no longer
sees X only when it had no such override. -/
theorem delete_from_business_consolidation (s s' : Store) (c : Caller)
    (tid bid : Nat) (del_ts : String) (et : EquipmentType)
    (het : s.types.find? (fun t => t.id == tid && t.deleted_at == none) = some et)
    (hglob : et.business_id = none)
    (h : delete_equipment_type_from_business s c tid bid del_ts = Except.ok s') :
    (∀ b ∈ s.businesses, b ≠ bid → businessSeesName s' b et.name = true) ∧
    (∀ t ∈ s'.types, t.business_id = none → t.name = et.name → t.deleted_at ≠ none) ∧
    (businessSeesName s' bid et.name =
      s.types.any fun t =>
        t.business_id == some bid && t.name == et.name && t.deleted_at == none) := by
  simp only [delete_equipment_type_from_business] at h
  split at h
  · cases h
  · rw [het] at h
    simp only [hglob] at h
    cases hm : materializeForBusinesses et bid s.businesses s with
    | error e => rw [hm] at h; cases h
    | ok s1 =>
      rw [hm] at h
      simp only [Except.map] at h
      cases h
      have htypes : ∀ t, t ∈ tombstoneGlobalsNamed et.name del_ts c.username s1.types ↔
          t ∈ tombstoneGlobalsNamed et.name del_ts c.username s1.types := fun _ => Iff.rfl
      have hnoG : existsGlobalNamed
          (tombstoneGlobalsNamed et.name del_ts c.username s1.types) et.name false = false := by
        rw [existsGlobalNamed, List.any_eq_false]
        intro g hg
        simp only [Bool.and_eq_true, beq_iff_eq]
        rintro ⟨⟨⟨hgb, hgn⟩, hgd⟩, -⟩
        exact tombstone_globals_complete et.name del_ts c.username s1.types g hg hgb hgn hgd
      refine ⟨?_, ?_, ?_⟩
      · intro b hbmem hbex
        obtain ⟨t, htm1, hbid, hn, hd⟩ :=
          materialize_covers_businesses et bid s.businesses s s1 hm b hbmem hbex
        have htm' : t ∈ tombstoneGlobalsNamed et.name del_ts c.username s1.types :=
          tombstone_globals_keeps_nonglobal et.name del_ts c.username s1.types t htm1
            (by rw [hbid]; simp)
        exact seesName_of_ownRow _ b et.name t htm' hbid hd hn hnoG
      · intro t htm hbid hn
        exact tombstone_globals_complete et.name del_ts c.username s1.types t htm hbid hn
      · clear htypes
        cases hany : s.types.any fun t =>
            t.business_id == some bid && t.name == et.name && t.deleted_at == none with
        | true =>
          simp only [List.any_eq_true, Bool.and_eq_true, beq_iff_eq] at hany
          obtain ⟨t, htm, ⟨hbid, hn⟩, hd⟩ := hany
          have htm1 : t ∈ s1.types :=
            materialize_preserves_rows et bid s.businesses s s1 hm t htm
          have htm' : t ∈ tombstoneGlobalsNamed et.name del_ts c.username s1.types :=
            tombstone_globals_keeps_nonglobal et.name del_ts c.username s1.types t htm1
              (by rw [hbid]; simp)
          exact seesName_of_ownRow _ bid et.name t htm' hbid hd hn hnoG
        | false =>
          cases hsee : businessSeesName
              { s1 with types := tombstoneGlobalsNamed et.name del_ts c.username s1.types }
              bid et.name with
          | false => rfl
          | true =>
            exfalso
            rw [businessSeesName, List.any_eq_true] at hsee
            obtain ⟨r, hrf, hrn⟩ := hsee
            obtain ⟨hrm, hrv⟩ := List.mem_filter.mp hrf
            have hrn' : r.name = et.name := by simpa using hrn
            simp only [catalogVisible, Bool.and_eq_true, Bool.or_eq_true, beq_iff_eq] at hrv
            obtain ⟨⟨hrd, -⟩, hdisj⟩ := hrv
            have hrbid : r.business_id = some bid := by
              rcases hdisj with hnone | ⟨hbid, -⟩
              · exact absurd hrd
                  (tombstone_globals_complete et.name del_ts c.username s1.types r hrm hnone hrn')
              · exact hbid
            have hrm1 : r ∈ s1.types :=
              tombstone_globals_nondeleted_origin et.name del_ts c.username s1.types r hrm hrd
            rcases materialize_row_origin et bid s.businesses s s1 hm r hrm1 with hin | hnew
            · have : (s.types.any fun t =>
                  t.business_id == some bid && t.name == et.name && t.deleted_at == none)
                  = true := by
                rw [List.any_eq_true]
                exact ⟨r, hin, by simp [hrbid, hrn', hrd]⟩
              rw [hany] at this
              cases this
            · obtain ⟨-, -, b', hb', hbex⟩ := hnew
              rw [hrbid] at hb'
              cases hb'
              exact hbex rfl

deriving instance DecidableEq for Except

/-- The store produced by the C3 scenario on `s0` (deleting global "X" from
business 1). -/
def s3res : Store :=
  match delete_equipment_type_from_business s0 sadmin 1 1 "2024-05-01T00:00:00" with
  | Except.ok s => s
  | Except.error _ => s0

/-- C3 (amended) at a concrete input: after deleting global "X" from
business 1 in `s0`, business 2 still sees a type named "X". -/
theorem delete_from_business_consolidation_witness :
    businessSeesName s3res 2 "X" = true :=
  (delete_from_business_consolidation s0 s3res sadmin 1 1 "2024-05-01T00:00:00" gX
    (by decide) (by decide) (by decide)).1 2 (by decide) (by decide)

/-- A primitive write or the transaction commit issued against the store by
the consolidation branch of `delete_equipment_type`.  Before `db.commit()`
(`api.py`, line 2097) every `db.execute` write is pending inside the
transaction (psycopg2 runs with autocommit off, and an uncommitted
transaction is rolled back when the connection is returned to the pool). -/
inductive DbAction where
  | insertType (t : EquipmentType)
  | tombstoneGlobals (n delAt delBy : String)
  | commitTx
deriving DecidableEq, Repr

/-- Transaction state: the pending (in-transaction) store and the last
committed (observable) store. -/
structure TxState where
  pending : Store
  committed : Store
deriving DecidableEq, Repr

/-- One step of the transactional storage collaborator: writes change only
the pending store, `commitTx` publishes it. -/
def applyDbAction (st : TxState) : DbAction → TxState
  | DbAction.insertType t => { st with pending := addTypeRow st.pending t }
  | DbAction.tombstoneGlobals n dAt dBy =>
    { st with pending :=
        { st.pending with types := tombstoneGlobalsNamed n dAt dBy st.pending.types } }
  | DbAction.commitTx => { st with committed := st.pending }

/-- Run a list of storage actions. -/
def runDb (st : TxState) (l : List DbAction) : TxState := l.foldl applyDbAction st

/-- The insert statements issued by the materialization loop (`api.py`,
lines 2067-2083), with the existence checks evaluated against the evolving
in-transaction state. -/
def materializeActions (src : EquipmentType) (excluded : Nat) :
    List Nat → Store → List DbAction
  | [], _ => []
  | b :: rest, s =>
    if b == excluded then materializeActions src excluded rest s
    else if s.types.any fun t =>
        t.name == src.name && t.business_id == some b && t.deleted_at == none then
      materializeActions src excluded rest s
    else
      DbAction.insertType (copyTypeFor src b s.next_type_id) ::
        materializeActions src excluded rest (addTypeRow s (copyTypeFor src b s.next_type_id))

/-- The full action sequence of the consolidation branch of
`delete_equipment_type` (`api.py`, lines 2057-2097): the materialization
inserts, the tombstoning update, and the single final `db.commit()`. -/
def consolidationActions (s : Store) (et : EquipmentType) (business_id : Nat)
    (delAt delBy : String) : List DbAction :=
  materializeActions et business_id s.businesses s ++
    [DbAction.tombstoneGlobals et.name delAt delBy, DbAction.commitTx]

/-- Running actions that contain no commit leaves the committed store
untouched. -/
theorem runDb_committed_of_no_commit :
    ∀ (l : List DbAction) (st : TxState),
      (∀ a ∈ l, a ≠ DbAction.commitTx) → (runDb st l).committed = st.committed := by
  intro l
  induction l with
  | nil => intro st _; rfl
  | cons a rest ih =>
    intro st hnc
    rw [runDb, List.foldl_cons]
    have h1 : (runDb (applyDbAction st a) rest).committed = (applyDbAction st a).committed :=
      ih (applyDbAction st a) fun x hx => hnc x (List.mem_cons_of_mem a hx)
    rw [runDb] at h1
    rw [h1]
    cases a with
    | insertType t => rfl
    | tombstoneGlobals n dAt dBy => rfl
    | commitTx => exact absurd rfl (hnc DbAction.commitTx (List.mem_cons_self _ _))

/-- Every materialization action is an insert (no commit occurs among them). -/
theorem materializeActions_all_inserts (src : EquipmentType) (ex : Nat) :
    ∀ (l : List Nat) (s : Store) (a : DbAction),
      a ∈ materializeActions src ex l s → ∃ t, a = DbAction.insertType t := by
  intro l
  induction l with
  | nil =>
    intro s a ha
    simp [materializeActions] at ha
  | cons b rest ih =>
    intro s a ha
    simp only [materializeActions] at ha
    split at ha
    · exact ih s a ha
    · split at ha
      · exact ih s a ha
      · rcases List.mem_cons.mp ha with hh | ht
        · exact ⟨copyTypeFor src b s.next_type_id, hh⟩
        · exact ih _ a ht

/-- C4: the consolidation is atomic.  The commit is the last of the issued
actions, so after any strict step budget `k` — that is, when the operation
fails at any point before completing — the committed (observable) store is
still the initial one: no state with only some of the materialized override
rows, or with the global row gone, is ever observable. -/
theorem consolidation_prefix_leaves_store_unchanged (s : Store) (et : EquipmentType)
    (business_id : Nat) (delAt delBy : String) (k : Nat)
    (hk : k < (consolidationActions s et business_id delAt delBy).length) :
    (runDb { pending := s, committed := s }
      ((consolidationActions s et business_id delAt delBy).take k)).committed = s := by
  have hlen : (consolidationActions s et business_id delAt delBy).length =
      (materializeActions et business_id s.businesses s ++
        [DbAction.tombstoneGlobals et.name delAt delBy]).length + 1 := by
    simp [consolidationActions]
  have hsplit : consolidationActions s et business_id delAt delBy =
      (materializeActions et business_id s.businesses s ++
        [DbAction.tombstoneGlobals et.name delAt delBy]) ++ [DbAction.commitTx] := by
    simp [consolidationActions]
  have hkle : k ≤ (materializeActions et business_id s.businesses s ++
      [DbAction.tombstoneGlobals et.name delAt delBy]).length := by
    omega
  rw [hsplit, List.take_append_of_le_length hkle]
  apply runDb_committed_of_no_commit
  intro a ha
  have ha' := List.mem_of_mem_take ha
  rcases List.mem_append.mp ha' with hmat | hsingle
  · obtain ⟨t, rfl⟩ := materializeActions_all_inserts et business_id s.businesses s a hmat
    intro hc
    cases hc
  · rw [List.mem_singleton] at hsingle
    subst hsingle
    intro hc
    cases hc

/-- C4 at a concrete input: running the first two of the three actions of the
`s0` consolidation (the insert and the tombstone, but not the commit) leaves
the committed store equal to `s0`. -/
theorem consolidation_prefix_leaves_store_unchanged_witness :
    (runDb { pending := s0, committed := s0 }
      ((consolidationActions s0 gX 1 "2024-05-01T00:00:00" "root").take 2)).committed = s0 :=
  consolidation_prefix_leaves_store_unchanged s0 gX 1 "2024-05-01T00:00:00" "root" 2
    (by decide)

/-- The request payload of `POST /equipment-completions`
(`api.py`, `EquipmentCompletionCreate`, lines 2790-2794). -/
structure EquipmentCompletionCreate where
  equipment_record_id : Nat
  due_date : Int
  interval_weeks : Option Int
  completed_by_user : Option String
deriving DecidableEq, Repr

/-- The record-existence/visibility lookup of `create_equipment_completion`
(`api.py`, lines 2823-2848): a super admin in all-businesses mode may hit any
record, deleted included; otherwise the record must belong to a client of
the business and not be soft-deleted. -/
def completionRecordLookup (s : Store) (c : Caller) (bid : Option Nat)
    (rid : Nat) : Option EquipmentRecord :=
  if c.is_super_admin && bid == none then
    s.records.find? fun er => er.id == rid
  else
    match bid with
    | some b =>
      s.records.find? fun er =>
        er.id == rid &&
          (s.clients.any fun cl => cl.id == er.client_id && cl.business_id == b) &&
          er.deleted_at == none
    | none => none

/-- The `create_equipment_completion` endpoint (`api.py`, lines 2814-2876):
after the visibility check it inserts one row into `equipment_completions`
whose `completed_by_user` is the authenticated caller's username
(lines 2852-2857) — the payload's `completed_by_user` is never read — and
touches no other table. -/
def create_equipment_completion (s : Store) (c : Caller)
    (p : EquipmentCompletionCreate) (completed_at_ts : String) :
    Except ApiError (Store × EquipmentCompletion) := do
  let bid ← get_business_id_ctx c
  match completionRecordLookup s c bid p.equipment_record_id with
  | none => Except.error (ApiError.notFound "Equipment record not found")
  | some _ =>
    let row : EquipmentCompletion :=
      { id := s.next_completion_id, equipment_record_id := p.equipment_record_id
        completed_at := completed_at_ts, due_date := p.due_date
        interval_weeks := p.interval_weeks, completed_by_user := some c.username }
    Except.ok
      ({ s with completions := s.completions ++ [row]
                next_completion_id := s.next_completion_id + 1 }, row)

/-- C5: `create_equipment_completion` only appends to the completion ledger:
on success every other table — in particular every `EquipmentRecord`, with
its `anchor_date` and `due_date` — is identical before and after, and the
ledger is the old ledger plus the one new row. -/
theorem create_completion_only_appends (s : Store) (c : Caller)
    (p : EquipmentCompletionCreate) (completed_at_ts : String)
    (s' : Store) (row : EquipmentCompletion)
    (h : create_equipment_completion s c p completed_at_ts = Except.ok (s', row)) :
    s'.records = s.records ∧ s'.types = s.types ∧ s'.clients = s.clients ∧
      s'.businesses = s.businesses ∧ s'.completions = s.completions ++ [row] := by
  simp only [create_equipment_completion, bind, Except.bind] at h
  split at h
  · cases h
  · split at h
    · cases h
    · cases h
      exact ⟨rfl, rfl, rfl, rfl, rfl⟩

/-- C10: the `completed_by_user` stored in the new ledger row is the
authenticated caller's username, and the outcome of the call does not depend
on the `completed_by_user` value supplied in the payload. -/
theorem completion_user_from_caller_context (s : Store) (c : Caller)
    (p : EquipmentCompletionCreate) (completed_at_ts : String) :
    (∀ s' row, create_equipment_completion s c p completed_at_ts = Except.ok (s', row) →
      row.completed_by_user = some c.username) ∧
    (∀ v, create_equipment_completion s c { p with completed_by_user := v } completed_at_ts =
      create_equipment_completion s c p completed_at_ts) := by
  constructor
  · intro s' row h
    simp only [create_equipment_completion, bind, Except.bind] at h
    split at h
    · cases h
    · split at h
      · cases h
      · cases h
        rfl
  · intro v
    rfl

/-- A concrete client of business 1. -/
def cl1 : Client := { id := 1, business_id := 1, client_name := "Acme Imaging" }

/-- A concrete active equipment record of client 1. -/
def rec1 : EquipmentRecord :=
  { id := 1, client_id := 1, site_id := 1, equipment_type_id := 2
    equipment_name := "CT-1", anchor_date := 739191, due_date := some 739373
    interval_weeks := 13, lead_weeks := none, active := true
    deleted_at := none, deleted_by := none }

/-- A concrete store holding `cl1` and `rec1`. -/
def sRec : Store :=
  { businesses := [1], clients := [cl1], types := [bX], records := [rec1]
    completions := [], next_type_id := 3, next_completion_id := 1 }

/-- A concrete regular (non-super-admin) user of business 1. -/
def alice : Caller :=
  { username := "alice", is_admin := true, is_super_admin := false, business_id := some 1 }

/-- A concrete completion payload that names a different `completed_by_user`
than the caller. -/
def pay1 : EquipmentCompletionCreate :=
  { equipment_record_id := 1, due_date := 739373, interval_weeks := some 13
    completed_by_user := some "mallory" }

/-- A placeholder ledger row (used only in the unreachable error arm of
`sRecAfter`). -/
def emptyCompletion : EquipmentCompletion :=
  { id := 0, equipment_record_id := 0, completed_at := "", due_date := 0
    interval_weeks := none, completed_by_user := none }

/-- The result of the concrete completion call on `sRec`. -/
def sRecAfter : Store × EquipmentCompletion :=
  match create_equipment_completion sRec alice pay1 "2024-07-01T09:00:00" with
  | Except.ok out => out
  | Except.error _ => (sRec, emptyCompletion)

/-- C5 at a concrete input: the concrete completion call leaves the
equipment records of `sRec` unchanged. -/
theorem create_completion_only_appends_witness :
    (sRecAfter.1).records = sRec.records :=
  (create_completion_only_appends sRec alice pay1 "2024-07-01T09:00:00"
    sRecAfter.1 sRecAfter.2 (by decide)).1

/-- C10 at a concrete input: the concrete completion call stores "alice", the
caller, as `completed_by_user`, not the "mallory" named in the payload. -/
theorem completion_user_from_caller_context_witness :
    (sRecAfter.2).completed_by_user = some "alice" :=
  (completion_user_from_caller_context sRec alice pay1 "2024-07-01T09:00:00").1
    sRecAfter.1 sRecAfter.2 (by decide)

/-- SQL equality against a possibly-NULL parameter: `business_id = ?` is
never satisfied when the bound parameter is NULL. -/
def sqlEqOpt (col : Option Nat) (param : Option Nat) : Bool :=
  match col, param with
  | some x, some y => x == y
  | _, _ => false

/-- The `GET /equipment-types/{id}` endpoint (`api.py`, lines 1866-1884):
super admins query without the `deleted_at IS NULL` filter — there is no
include-deleted request parameter on this path — while regular users only
see non-deleted rows. -/
def get_equipment_type (s : Store) (c : Caller) (tid : Nat) :
    Except ApiError EquipmentType := do
  let bid ← get_business_id_ctx c
  let found :=
    if c.is_super_admin then
      s.types.find? fun t => t.id == tid && sqlEqOpt t.business_id bid
    else
      s.types.find? fun t => t.id == tid && sqlEqOpt t.business_id bid && t.deleted_at == none
  match found with
  | none => Except.error (ApiError.notFound "Equipment type not found")
  | some t => Except.ok t

/-- Modelled from the spec: the `is_visible` predicate of §4.5 — a
soft-deleted entity is visible only to a privileged caller who explicitly
requested deleted entities. -/
def is_visible_spec (deleted_at : Option String) (privileged requested_include_deleted : Bool) :
    Bool :=
  deleted_at == none || (privileged && requested_include_deleted)

/-- A concrete soft-deleted tenant type of business 5. -/
def dX : EquipmentType :=
  { id := 7, business_id := some 5, name := "Dosimeter check", interval_weeks := 52
    rrule := "FREQ=WEEKLY;INTERVAL=52", default_lead_weeks := 5, active := true
    deleted_at := some "2024-04-01T00:00:00", deleted_by := some "root" }

/-- A concrete store holding only the soft-deleted `dX`. -/
def sDel : Store :=
  { businesses := [5], clients := [], types := [dX], records := []
    completions := [], next_type_id := 8, next_completion_id := 1 }

/-- A concrete super admin scoped to business 5. -/
def sadmin5 : Caller :=
  { username := "root", is_admin := true, is_super_admin := true, business_id := some 5 }

/-- C8: counterexample.  `get_equipment_type` returns the soft-deleted `dX`
to a super admin even though that endpoint offers no way to request deleted
entities: the spec's `is_visible` predicate (privileged AND requested)
evaluates to false for it, so the claim that a privileged caller who has not
requested deleted entities does not see them fails on this read path. -/
theorem super_admin_sees_deleted_without_request :
    get_equipment_type sDel sadmin5 7 = Except.ok dX ∧
      is_visible_spec dX.deleted_at true false = false := by
  decide

/-- C8 (amended): the tombstone filter is applied exactly to non-privileged
callers.  A type returned by `get_equipment_type` is non-deleted unless the
caller is a super admin (who needs no include-deleted request), and a
successful `create_equipment_completion` by a caller who is not a super
admin in all-businesses mode references a non-deleted record. -/
theorem deleted_hidden_from_unprivileged :
    (∀ (s : Store) (c : Caller) (tid : Nat) (t : EquipmentType),
      get_equipment_type s c tid = Except.ok t → c.is_super_admin = false →
      t.deleted_at = none) ∧
    (∀ (s : Store) (c : Caller) (p : EquipmentCompletionCreate) (ts : String)
      (out : Store × EquipmentCompletion),
      create_equipment_completion s c p ts = Except.ok out →
      (c.is_super_admin = false ∨ c.business_id ≠ none) →
      ∃ er ∈ s.records, er.id = p.equipment_record_id ∧ er.deleted_at = none) := by
  constructor
  · intro s c tid t h hnsa
    simp only [get_equipment_type, bind, Except.bind, hnsa, Bool.false_eq_true,
      if_false] at h
    split at h
    · cases h
    · rename_i bid hbid
      split at h
      · cases h
      · rename_i t0 hfind
        cases h
        have hp := List.find?_some hfind
        simp only [Bool.and_eq_true, beq_iff_eq] at hp
        exact hp.2
  · intro s c p ts out h hcond
    simp only [create_equipment_completion, bind, Except.bind] at h
    split at h
    · cases h
    · rename_i bid hbid
      have hlook : ∀ er, completionRecordLookup s c bid p.equipment_record_id = some er →
          er ∈ s.records ∧ er.id = p.equipment_record_id ∧ er.deleted_at = none := by
        intro er hfound
        rw [completionRecordLookup.eq_def] at hfound
        split at hfound
        · rename_i hsa
          exfalso
          simp only [Bool.and_eq_true, beq_iff_eq] at hsa
          obtain ⟨hsup, hbnone⟩ := hsa
          rcases hcond with hns | hbne
          · rw [hns] at hsup
            exact Bool.false_ne_true hsup
          · apply hbne
            subst hbnone
            simp only [get_business_id_ctx, hsup, if_true] at hbid
            simpa using hbid
        · split at hfound
          · rename_i b
            have hp := List.find?_some hfound
            have hm := List.mem_of_find?_eq_some hfound
            simp only [Bool.and_eq_true, beq_iff_eq] at hp
            exact ⟨hm, hp.1.1, hp.2⟩
          · cases hfound
      split at h
      · cases h
      · rename_i er hfound
        obtain ⟨hm, hid, hd⟩ := hlook er hfound
        exact ⟨er, hm, hid, hd⟩

/-- A concrete non-deleted type of business 5 (id 9). -/
def oX : EquipmentType :=
  { id := 9, business_id := some 5, name := "Survey meter cal", interval_weeks := 52
    rrule := "FREQ=WEEKLY;INTERVAL=52", default_lead_weeks := 4, active := true
    deleted_at := none, deleted_by := none }

/-- A concrete store holding `dX` and `oX`. -/
def sDel2 : Store :=
  { businesses := [5], clients := [], types := [dX, oX], records := []
    completions := [], next_type_id := 10, next_completion_id := 1 }

/-- A concrete regular user of business 5. -/
def bob : Caller :=
  { username := "bob", is_admin := false, is_super_admin := false, business_id := some 5 }

/-- C8 (amended) at a concrete input: the type the regular user `bob`
retrieves from `sDel2` is not soft-deleted. -/
theorem deleted_hidden_from_unprivileged_witness : oX.deleted_at = none :=
  deleted_hidden_from_unprivileged.1 sDel2 bob 9 oX (by decide) (by decide)

/-- The request payload of `POST /equipment-types`
(`api.py`, `EquipmentTypeCreate`). -/
structure EquipmentTypeCreate where
  business_id : Option Nat
  name : String
  interval_weeks : Int
  rrule : String
  default_lead_weeks : Int
  active : Bool
deriving DecidableEq, Repr

/-- Whether the `INSERT INTO equipment_types` raises a unique-constraint
violation.  The schema constraint is `UNIQUE(business_id, name)`
(`sql.py`, line 79); under SQL semantics two NULL `business_id` values are
distinct, so the constraint never fires when the new row is global. -/
def uniqueViolation (ts : List EquipmentType) (bid : Option Nat) (n : String) : Bool :=
  match bid with
  | none => false
  | some b => ts.any fun t => t.business_id == some b && t.name == n

/-- The `create_equipment_type` endpoint (`api.py`, lines 1887-1946):
resolve the owning scope from the caller and payload, insert the row, and
translate a unique-constraint violation into a duplicate-name error. -/
def create_equipment_type (s : Store) (c : Caller) (p : EquipmentTypeCreate) :
    Except ApiError (Store × EquipmentType) := do
  let bid ←
    if c.is_super_admin then
      match p.business_id with
      | some b =>
        if s.businesses.contains b then Except.ok (some b)
        else Except.error (ApiError.notFound "Business not found")
      | none => Except.ok (none : Option Nat)
    else
      match c.business_id with
      | none => Except.error (ApiError.badRequest "No business context available")
      | some b =>
        if b == 0 then Except.error (ApiError.badRequest "No business context available")
        else Except.ok (some b)
  if uniqueViolation s.types bid p.name then
    Except.error (ApiError.badRequest "Equipment type name must be unique within business")
  else
    let row : EquipmentType :=
      { id := s.next_type_id, business_id := bid, name := p.name
        interval_weeks := p.interval_weeks, rrule := p.rrule
        default_lead_weeks := p.default_lead_weeks, active := p.active
        deleted_at := none, deleted_by := none }
    Except.ok ({ s with types := s.types ++ [row], next_type_id := s.next_type_id + 1 }, row)

/-- A concrete empty store with two businesses. -/
def sEmptyTypes : Store :=
  { businesses := [1, 2], clients := [], types := [], records := []
    completions := [], next_type_id := 1, next_completion_id := 1 }

/-- A concrete global-scope creation payload. -/
def payNM : EquipmentTypeCreate :=
  { business_id := none, name := "NM Audit", interval_weeks := 13
    rrule := "FREQ=WEEKLY;INTERVAL=13", default_lead_weeks := 3, active := true }

/-- Evaluates the C9 failing input: create the same global type name twice;
`true` exactly when the second call also succeeds and the store then holds
two global rows named "NM Audit". -/
def c9SecondGlobalCreate : Bool :=
  match create_equipment_type sEmptyTypes sadmin payNM with
  | Except.ok (s1, _) =>
    match create_equipment_type s1 sadmin payNM with
    | Except.ok (s2, _) =>
      (s2.types.countP fun t => t.business_id == none && t.name == "NM Audit") == 2
    | Except.error _ => false
  | Except.error _ => false

/-- C9: the code at the failing input.  Creating a second global type named
"NM Audit" does not fail with a duplicate-name error: `UNIQUE(business_id,
name)` never fires for NULL `business_id`, so the second insert succeeds and
leaves two global rows of the same name — contradicting the claim (and the
code's own error-handling branch for the global case, `api.py`,
lines 1917-1930). -/
theorem duplicate_global_name_insert_succeeds : c9SecondGlobalCreate = true := by
  decide

/-- Modelled from the spec: `next_due` of §4.1 (the RecurrenceCalculator has
no implementation under `src/`) — the smallest element of
`{anchor + k * interval_weeks * 7 days}` strictly greater than `reference`,
with dates as integer day numbers. -/
def next_due (anchor : Int) (interval_weeks : Nat) (reference : Int) : Int :=
  if reference < anchor then anchor
  else
    anchor +
      ((7 * interval_weeks * ((reference - anchor).toNat / (7 * interval_weeks) + 1) : Nat) : Int)

/-- Modelled from the spec: Gregorian calendar dates encoded as day numbers
(a standard days-from-civil computation), so the spec's concrete calendar
example can be stated. -/
def toDays (y m d : Nat) : Nat :=
  let yAdj := if m ≤ 2 then y - 1 else y
  let mAdj := if m ≤ 2 then m + 9 else m - 3
  365 * yAdj + yAdj / 4 - yAdj / 100 + yAdj / 400 + (153 * mAdj + 2) / 5 + d - 1

/-- C6: for every anchor, positive interval and reference date, `next_due`
is strictly after the reference and its distance from the anchor is an exact
non-negative multiple of `interval_weeks * 7` days; and on the spec's
concrete example the 13-week series anchored 2024-01-01 queried at
2024-06-01 is next due 2024-07-01. -/
theorem next_due_spec :
    (∀ (anchor reference : Int) (n : Nat), 1 ≤ n →
      reference < next_due anchor n reference ∧
        ∃ k : Nat, next_due anchor n reference - anchor = ((7 * n * k : Nat) : Int)) ∧
    next_due ((toDays 2024 1 1 : Nat) : Int) 13 ((toDays 2024 6 1 : Nat) : Int) =
      ((toDays 2024 7 1 : Nat) : Int) := by
  constructor
  · intro anchor reference n hn
    rw [next_due]
    split
    · rename_i hlt
      exact ⟨hlt, 0, by simp⟩
    · rename_i hge
      have hanc : anchor ≤ reference := not_lt.mp hge
      set d : Nat := (reference - anchor).toNat with hd
      have hdval : (d : Int) = reference - anchor := Int.toNat_of_nonneg (by omega)
      have h7 : 0 < 7 * n := by omega
      have hdm := Nat.div_add_mod d (7 * n)
      have hml := Nat.mod_lt d h7
      constructor
      · have hgt : d < 7 * n * (d / (7 * n) + 1) := by
          nlinarith [hdm, hml]
        have hgt' : (d : Int) < ((7 * n * (d / (7 * n) + 1) : Nat) : Int) := by
          exact_mod_cast hgt
        omega
      · exact ⟨d / (7 * n) + 1, by push_cast; ring⟩
  · decide

/-- C6 at a concrete input: the general part of `next_due_spec` applied to
anchor 0, interval 2 weeks, reference day 5 — the next due day 14 is after
the reference and 14 days from the anchor. -/
theorem next_due_spec_witness :
    (5 : Int) < next_due 0 2 5 ∧
      ∃ k : Nat, next_due 0 2 5 - 0 = ((7 * 2 * k : Nat) : Int) :=
  next_due_spec.1 0 5 2 (by decide)

/-- The window computation of `get_upcoming_equipment_records`
(`api.py`, lines 2317-2328): a non-zero `weeks` wins (Python `if weeks:` is
false for `None` and `0`), else explicit `start_date`/`end_date` are used
exactly as supplied, else the window defaults to two weeks from today. -/
def upcoming_window (today : Int) (start_date end_date : Option Int)
    (weeks : Option Int) : Int × Int :=
  if (match weeks with | some w => w != 0 | none => false) then
    (today, today + 7 * weeks.getD 0)
  else
    match start_date, end_date with
    | some s, some e => (s, e)
    | _, _ => (today, today + 14)

/-- The row filter of the upcoming query (`api.py`, lines 2358-2367):
non-deleted, active, due date present and inside the window (both bounds
inclusive), and — when a business is given — owned by a client of that
business. -/
def upcoming_filter (s : Store) (bid : Option Nat) (win : Int × Int) :
    List EquipmentRecord :=
  s.records.filter fun er =>
    er.deleted_at == none && er.active &&
      (match er.due_date with
       | some d => decide (win.1 ≤ d) && decide (d ≤ win.2)
       | none => false) &&
      (match bid with
       | some b => s.clients.any fun cl => cl.id == er.client_id && cl.business_id == b
       | none => true)

/-- The `GET /equipment-records/upcoming` endpoint
(`api.py`, lines 2309-2378). -/
def get_upcoming_equipment_records (s : Store) (c : Caller) (today : Int)
    (start_date end_date : Option Int) (weeks : Option Int) :
    Except ApiError (List EquipmentRecord) := do
  let bid ← get_business_id_ctx c
  Except.ok (upcoming_filter s bid (upcoming_window today start_date end_date weeks))

/-- A concrete record of client 1 whose due date (day 60) is before
"today" (day 100). -/
def recPast : EquipmentRecord :=
  { id := 2, client_id := 1, site_id := 1, equipment_type_id := 2
    equipment_name := "Gamma camera", anchor_date := 0, due_date := some 60
    interval_weeks := 13, lead_weeks := none, active := true
    deleted_at := none, deleted_by := none }

/-- A concrete store holding `cl1` and `recPast`. -/
def sPast : Store :=
  { businesses := [1], clients := [cl1], types := [], records := [recPast]
    completions := [], next_type_id := 1, next_completion_id := 1 }

/-- C7: counterexample.  With today = day 100 and an explicit start = day 50
in the past, the code uses day 50 as the window start — it is not clamped to
today — and the query therefore returns a record whose due date (day 60) is
already in the past. -/
theorem upcoming_start_not_clamped :
    upcoming_window 100 (some 50) (some 200) none = (50, 200) ∧ (50 : Int) ≠ 100 ∧
      recPast ∈ upcoming_filter sPast (some 1) (upcoming_window 100 (some 50) (some 200) none) := by
  refine ⟨by decide, by decide, by decide⟩

/-- C7 (amended): a caller-supplied start date is used exactly as given,
even when it lies before today (no clamping occurs); when neither explicit
dates nor a week count are supplied the window defaults to
`[today, today + 14 days]`; and membership in the upcoming result is due
date inside the window with both bounds inclusive. -/
theorem upcoming_window_behavior :
    (∀ (today s e : Int), upcoming_window today (some s) (some e) none = (s, e)) ∧
    (∀ today : Int, upcoming_window today none none none = (today, today + 14)) ∧
    (∀ (st : Store) (bid : Option Nat) (win : Int × Int) (er : EquipmentRecord),
      er ∈ upcoming_filter st bid win ↔
        er ∈ st.records ∧ er.deleted_at = none ∧ er.active = true ∧
          (∃ d, er.due_date = some d ∧ win.1 ≤ d ∧ d ≤ win.2) ∧
          (∀ b, bid = some b →
            ∃ cl ∈ st.clients, cl.id = er.client_id ∧ cl.business_id = b)) := by
  refine ⟨fun _ _ _ => rfl, fun _ => rfl, ?_⟩
  intro st bid win er
  rw [upcoming_filter, List.mem_filter]
  constructor
  · rintro ⟨hm, hp⟩
    simp only [Bool.and_eq_true, beq_iff_eq] at hp
    obtain ⟨⟨⟨hd, hact⟩, hwin⟩, hscope⟩ := hp
    refine ⟨hm, hd, hact, ?_, ?_⟩
    · cases hdd : er.due_date with
      | none => rw [hdd] at hwin; cases hwin
      | some d =>
        rw [hdd] at hwin
        simp only [Bool.and_eq_true, decide_eq_true_eq] at hwin
        exact ⟨d, rfl, hwin.1, hwin.2⟩
    · intro b hb
      rw [hb] at hscope
      simp only [List.any_eq_true, Bool.and_eq_true, beq_iff_eq] at hscope
      obtain ⟨cl, hcl, hcid, hcb⟩ := hscope
      exact ⟨cl, hcl, hcid, hcb⟩
  · rintro ⟨hm, hd, hact, ⟨d, hdd, hlo, hhi⟩, hscope⟩
    refine ⟨hm, ?_⟩
    simp only [Bool.and_eq_true, beq_iff_eq]
    refine ⟨⟨⟨hd, hact⟩, ?_⟩, ?_⟩
    · rw [hdd]
      simp [hlo, hhi]
    · cases bid with
      | none => rfl
      | some b =>
        obtain ⟨cl, hcl, hcid, hcb⟩ := hscope b rfl
        simp only [List.any_eq_true, Bool.and_eq_true, beq_iff_eq]
        exact ⟨cl, hcl, hcid, hcb⟩

/-- C7 (amended) at a concrete input: with today = day 100 the default
window (no dates, no week count) is `(100, 114)`. -/
theorem upcoming_window_behavior_witness :
    upcoming_window 100 none none none = (100, 114) :=
  upcoming_window_behavior.2.1 100

end WavePhysics
